import Mathlib

/-!
Formal model of the tacticApp soccer tactics-board editor.

Each definition below is a shallow embedding of a function of the
TypeScript source (file and symbol named in its doc comment).
Coordinates are modelled as exact rationals (or reals where the source
uses square roots and trigonometry); JavaScript number arithmetic is
idealised as exact field arithmetic.  Identifier renamings forced by
Lean keywords are noted where they occur (for example the source field
`from` becomes `frm`, `end` becomes `endP`).
-/

/-- Three-component vector, modelling three.js `Vector3` (fields x, y, z). -/
structure Vec3 (α : Type) where
  x : α
  y : α
  z : α
  deriving DecidableEq

instance [Add α] : Add (Vec3 α) := ⟨fun a b => ⟨a.x + b.x, a.y + b.y, a.z + b.z⟩⟩

instance [Sub α] : Sub (Vec3 α) := ⟨fun a b => ⟨a.x - b.x, a.y - b.y, a.z - b.z⟩⟩

/-- Scalar multiplication of a `Vec3`, modelling `Vector3.multiplyScalar`. -/
def Vec3.smul [Mul α] (c : α) (v : Vec3 α) : Vec3 α := ⟨c * v.x, c * v.y, c * v.z⟩

/-- Scalar division of a `Vec3`, modelling `Vector3.divideScalar`. -/
def Vec3.divScalar [Div α] (v : Vec3 α) (c : α) : Vec3 α := ⟨v.x / c, v.y / c, v.z / c⟩

/-- Dot product, modelling `Vector3.dot`. -/
def dot3 [Add α] [Mul α] (v w : Vec3 α) : α := v.x * w.x + v.y * w.y + v.z * w.z

/-- Squared distance between two vectors (`Vector3.distanceToSquared`).
Distance comparisons of the source against non-negative thresholds are
modelled by comparing squares, which is equivalent and stays in `ℚ`. -/
def distSq (a b : Vec3 ℚ) : ℚ := (a.x - b.x)^2 + (a.y - b.y)^2 + (a.z - b.z)^2

/- ### Nav-lock state (src/state/NavLockContext.tsx and the gesture-scoped
refs of the Annotations component, src/unnamed/part_007 lines 43-57) -/

/-- The nav-lock flag together with the two gesture-scoped refs of the
Annotations component: `prevNavLockBeforeDrawRef` and `didLockForDrawRef`. -/
structure NavState where
  isNavLocked : Bool
  prevNavLockBeforeDraw : Bool
  didLockForDraw : Bool
  deriving DecidableEq

/-- `setNavLock` of NavLockContext: overwrite the flag. -/
def setNavLock (b : Bool) (s : NavState) : NavState := { s with isNavLocked := b }

/-- `toggleNavLock` of NavLockContext, invoked by the global Space hotkey. -/
def toggleNavLock (s : NavState) : NavState := { s with isNavLocked := !s.isNavLocked }

/-- `beginDrawNavLock` (part_007 lines 45-51): if no draw lock is held,
snapshot the current flag, force the lock on, and mark the gesture. -/
def beginDrawNavLock (s : NavState) : NavState :=
  if s.didLockForDraw then s
  else
    let s1 := { s with prevNavLockBeforeDraw := s.isNavLocked }
    let s2 := if !s1.isNavLocked then setNavLock true s1 else s1
    { s2 with didLockForDraw := true }

/-- `endDrawNavLock` (part_007 lines 52-57): if a draw lock is held, clear
the flag only when the snapshot was unlocked, then release the mark. -/
def endDrawNavLock (s : NavState) : NavState :=
  if s.didLockForDraw then
    let s1 := if !s.prevNavLockBeforeDraw then setNavLock false s else s
    { s1 with didLockForDraw := false }
  else s

/- ### Players and team options (src/types.ts / src/unnamed/part_003,
src/unnamed/part_000 TeamOptionsContext, src/unnamed/part_001 PlayersContext) -/

/-- The `'A' | 'B'` team tag. -/
inductive Team where
  | A
  | B
  deriving DecidableEq

/-- The `PlayerRole` enum of src/types.ts. -/
inductive PlayerRole where
  | GK | CB | RB | LB | RWB | LWB | SW | CDM | CM
  | CAM | RM | LM | RW | LW | CF | ST | SS
  deriving DecidableEq

/-- The `Player` record of src/types.ts; `α` is the coordinate field. -/
structure Player (α : Type) where
  id : String
  teamId : Team
  name : String
  number : Nat
  role : PlayerRole
  position : Vec3 α
  deriving DecidableEq

/-- The `TeamOptions` record of src/types.ts. -/
structure TeamOptions where
  color : String
  showPassingNet : Bool
  passingNetPlayerIds : List String
  showCoveredArea : Bool
  coveredAreaPlayerIds : List String
  showPlayerNames : Bool
  showPlayerRoles : Bool
  showPlayerNumbers : Bool
  deriving DecidableEq

/-- The two per-team option states held by `TeamOptionsProvider`. -/
structure TeamOptionsState where
  teamAOptions : TeamOptions
  teamBOptions : TeamOptions
  deriving DecidableEq

/-- The `'passingNet' | 'coveredArea'` feature tag of `togglePlayerSelection`. -/
inductive Feature where
  | passingNet
  | coveredArea
  deriving DecidableEq

/-- The id-list update inside `togglePlayerSelection` (part_000 lines 33-43):
remove every occurrence when present (`filter(id => id !== playerId)`),
otherwise append at the end (`[...currentIds, playerId]`). -/
def toggleIds (playerId : String) (ids : List String) : List String :=
  if playerId ∈ ids then ids.filter (fun i => i ≠ playerId) else ids ++ [playerId]

/-- Key selection of `togglePlayerSelection`: which id-list a feature owns. -/
def featureIds (feature : Feature) (o : TeamOptions) : List String :=
  match feature with
  | .passingNet => o.passingNetPlayerIds
  | .coveredArea => o.coveredAreaPlayerIds

/-- Update the id-list a feature owns, leaving all other fields alone
(the `{ ...prev, [key]: newIds }` spread of part_000). -/
def toggleFeature (feature : Feature) (playerId : String) (o : TeamOptions) : TeamOptions :=
  match feature with
  | .passingNet => { o with passingNetPlayerIds := toggleIds playerId o.passingNetPlayerIds }
  | .coveredArea => { o with coveredAreaPlayerIds := toggleIds playerId o.coveredAreaPlayerIds }

/-- Setter selection of `togglePlayerSelection`: team `A` updates
`teamAOptions`, team `B` updates `teamBOptions`. -/
def togglePlayerSelection (team : Team) (feature : Feature) (playerId : String)
    (s : TeamOptionsState) : TeamOptionsState :=
  match team with
  | .A => { s with teamAOptions := toggleFeature feature playerId s.teamAOptions }
  | .B => { s with teamBOptions := toggleFeature feature playerId s.teamBOptions }

/-- Projection matching the setter selection of `togglePlayerSelection`. -/
def teamOptionsOf (team : Team) (s : TeamOptionsState) : TeamOptions :=
  match team with
  | .A => s.teamAOptions
  | .B => s.teamBOptions

/-- `Partial<Player>` patches accepted by `updatePlayer` (part_001). -/
structure PlayerPatch (α : Type) where
  id : Option String := none
  teamId : Option Team := none
  name : Option String := none
  number : Option Nat := none
  role : Option PlayerRole := none
  position : Option (Vec3 α) := none
  deriving DecidableEq

/-- The `{ ...p, ...updates }` spread of `updatePlayer`. -/
def mergePlayer (p : Player α) (q : PlayerPatch α) : Player α :=
  { id := q.id.getD p.id
    teamId := q.teamId.getD p.teamId
    name := q.name.getD p.name
    number := q.number.getD p.number
    role := q.role.getD p.role
    position := q.position.getD p.position }

/-- `updatePlayer` (part_001 lines 20-22): patch the player with a matching
id, leave every other player untouched. -/
def updatePlayer (idS : String) (q : PlayerPatch α) (l : List (Player α)) : List (Player α) :=
  l.map (fun p => if p.id = idS then mergePlayer p q else p)

/-- `updatePlayerPosition` (part_001 lines 24-26). -/
def updatePlayerPosition (idS : String) (pos : Vec3 α) (l : List (Player α)) : List (Player α) :=
  l.map (fun p => if p.id = idS then { p with position := pos } else p)

/- ### Annotations (the `Annotation` tagged union of src/types.ts /
src/unnamed/part_003; `Annotation` is shortened to `Ann` here) -/

/-- The optional `strokeStyle` values. -/
inductive StrokeStyle where
  | solid
  | dashed
  | dotted
  deriving DecidableEq

/-- The `AnnotationType` string union of the source. -/
inductive AnnType where
  | rectangle
  | square
  | circle
  | arrow
  deriving DecidableEq

/-- Shape-specific geometry of the tagged union: `rect` covers both the
`rectangle` and `square` tags (`isSquare` distinguishes them) with the two
opposite corners `start`/`end` (the latter renamed `endP`, `end` being a
Lean keyword) and the optional `rotation`; `circle` carries center and
radius; `arrow` carries `from`/`to` (renamed `frm`/`toP`). -/
inductive AnnShape (α : Type) where
  | rect (isSquare : Bool) (start endP : Vec3 α) (rotation : Option α)
  | circle (center : Vec3 α) (radius : α)
  | arrow (frm toP : Vec3 α)
  deriving DecidableEq

/-- One stored drawing (AnnotationBase fields plus the shape geometry). -/
structure Ann (α : Type) where
  id : String
  color : String
  lineWidth : α
  filled : Bool
  strokeStyle : Option StrokeStyle
  shape : AnnShape α
  deriving DecidableEq

/-- The `type` tag of an annotation. -/
def Ann.atype (a : Ann α) : AnnType :=
  match a.shape with
  | .rect true _ _ _ => .square
  | .rect false _ _ _ => .rectangle
  | .circle _ _ => .circle
  | .arrow _ _ => .arrow

/-- `Partial<Annotation>` patches accepted by `updateAnnotation` of
src/state/DrawingContext.tsx.  A geometry key that does not belong to the
target's shape is ignored; the source never produces such a patch. -/
structure AnnPatch (α : Type) where
  id : Option String := none
  color : Option String := none
  lineWidth : Option α := none
  filled : Option Bool := none
  strokeStyle : Option StrokeStyle := none
  start : Option (Vec3 α) := none
  endP : Option (Vec3 α) := none
  rotation : Option α := none
  center : Option (Vec3 α) := none
  radius : Option α := none
  frm : Option (Vec3 α) := none
  toP : Option (Vec3 α) := none
  deriving DecidableEq

/-- The `{ ...a, ...patch }` spread of `updateAnnotation`. -/
def mergeAnn (a : Ann α) (q : AnnPatch α) : Ann α :=
  { id := q.id.getD a.id
    color := q.color.getD a.color
    lineWidth := q.lineWidth.getD a.lineWidth
    filled := q.filled.getD a.filled
    strokeStyle := match q.strokeStyle with
      | some s => some s
      | none => a.strokeStyle
    shape := match a.shape with
      | .rect sq s e r =>
          .rect sq (q.start.getD s) (q.endP.getD e)
            (match q.rotation with | some v => some v | none => r)
      | .circle c rad => .circle (q.center.getD c) (q.radius.getD rad)
      | .arrow f t => .arrow (q.frm.getD f) (q.toP.getD t) }

/-- `updateAnnotation` of DrawingContext (line 33): patch the annotation
with a matching id, leave every other annotation untouched. -/
def updateAnn (idS : String) (q : AnnPatch α) (l : List (Ann α)) : List (Ann α) :=
  l.map (fun a => if a.id = idS then mergeAnn a q else a)

/-- `removeAnnotation` of DrawingContext (line 34):
`prev.filter(a => a.id !== id)`. -/
def removeAnn (idS : String) (l : List (Ann α)) : List (Ann α) :=
  l.filter (fun a => a.id ≠ idS)

/- ### Hit testing and the erase tool (src/unnamed/part_007) -/

/-- `distPointToSegment` (part_007 lines 92-98), returning the squared
distance: `t` is the clamped projection parameter with the `1e-6` guard,
`proj = a + t * ab`.  The source returns `proj.distanceTo(pnt)` and only
ever compares it against non-negative thresholds, so the squared form is
compared against squared thresholds below. -/
def distPointToSegmentSq (a b pnt : Vec3 ℚ) : ℚ :=
  let ap := pnt - a
  let ab := b - a
  let t := max 0 (min 1 (dot3 ap ab / max 0.000001 (dot3 ab ab)))
  let proj := a + Vec3.smul t ab
  distSq proj pnt

/-- The shape-specific containment/distance predicate shared verbatim by the
erase branch of `onFieldPointerDown` (part_007 lines 373-394) and by
`pickAnnotationAt` (lines 106-133), with `threshold = 1.0`:
rectangles/squares test the axis-aligned bounding box of `start`/`end`
(rotation is ignored by the source as well); circles test planar distance to
the center against `radius + 0.25`; arrows test the planar distance to the
segment against `0.5`.  Distances are compared in squared form. -/
def hitAnn (p : Vec3 ℚ) (a : Ann ℚ) : Bool :=
  match a.shape with
  | .rect _ s e _ =>
      decide (min s.x e.x ≤ p.x ∧ p.x ≤ max s.x e.x ∧
              min s.z e.z ≤ p.z ∧ p.z ≤ max s.z e.z)
  | .circle c r =>
      decide (distSq p ⟨c.x, p.y, c.z⟩ ≤ (r + 0.25)^2 ∧ 0 ≤ r + 0.25)
  | .arrow f t =>
      decide (distPointToSegmentSq ⟨f.x, p.y, f.z⟩ ⟨t.x, p.y, t.z⟩ p ≤ (0.5 : ℚ)^2)

/-- `pickAnnotationAt` (part_007 lines 101-134): reverse the list, then take
the first hit — so the last-created annotation wins.  The source marks this
helper as currently unused. -/
def pickAnnotationAt (p : Vec3 ℚ) (l : List (Ann ℚ)) : Option (Ann ℚ) :=
  l.reverse.find? (hitAnn p)

/-- The erase branch of `onFieldPointerDown` (part_007 lines 371-396):
`annotations.find(...)` scans in list (creation) order, and the first hit,
if any, is removed via `removeAnnotation(target.id)`. -/
def eraseAnnAt (p : Vec3 ℚ) (l : List (Ann ℚ)) : List (Ann ℚ) :=
  match l.find? (hitAnn p) with
  | some target => removeAnn target.id l
  | none => l

/-- The erase branch acts on the annotation list only; with no annotation
selection active it performs no nav-lock call (`beginDrawNavLock` is invoked
only for the rectangle/square/circle/arrow tools, part_007 lines 355-357). -/
def onFieldPointerDownErase (p : Vec3 ℚ) (l : List (Ann ℚ)) (nav : NavState) :
    List (Ann ℚ) × NavState :=
  (eraseAnnAt p l, nav)

/- ### Passing network (src/components/three/PassingNet.tsx) -/

/-- The `players.filter(p => playerIds.includes(p.id))` selection shared by
PassingNet and CoveredArea. -/
def activePlayers (players : List (Player ℚ)) (playerIds : List String) : List (Player ℚ) :=
  players.filter (fun p => playerIds.contains p.id)

/-- The double loop of PassingNet (lines 17-22): for every `i < j` push the
segment between positions `i` and `j`. -/
def pairsOf (l : List (Vec3 ℚ)) : List (Vec3 ℚ × Vec3 ℚ) :=
  match l with
  | [] => []
  | x :: xs => xs.map (fun y => (x, y)) ++ pairsOf xs

/-- The segments rendered by `PassingNet` (lines 11-41): empty when fewer
than two selected players are present, otherwise all unordered pairs of the
selected players' current positions. -/
def passingNetLines (players : List (Player ℚ)) (playerIds : List String) :
    List (Vec3 ℚ × Vec3 ℚ) :=
  if (activePlayers players playerIds).length < 2 then []
  else pairsOf ((activePlayers players playerIds).map (fun p => p.position))

/- ### Covered area (src/unnamed/part_009: getConvexHull and CoveredArea) -/

/-- Classification of the `Math.atan2(v.z, v.x)` value of a planar vector:
class 0 for angles in `(-π, 0)` (z < 0), class 1 for `[0, π)` (z > 0, or
z = 0 with x ≥ 0), class 2 for the angle `π` exactly (z = 0, x < 0). -/
def angClass (v : Vec3 ℚ) : Nat :=
  if v.z < 0 then 0
  else if v.z = 0 ∧ v.x < 0 then 2
  else 1

/-- The x/z cross product used to compare two angles inside one class. -/
def crossXZ (a b : Vec3 ℚ) : ℚ := a.x * b.z - a.z * b.x

/-- Exact strict comparison of the comparator
`Math.atan2(a.z - c.z, a.x - c.x) - Math.atan2(b.z - c.z, b.x - c.x)` used
by the sort in `getConvexHull` (lines 17-21): angle classes order the three
atan2 ranges, and within one class (an arc shorter than a half-turn) the
cross-product sign decides.  This reproduces the atan2 ordering exactly for
points distinct from the centroid; a point equal to the centroid compares
equal to every class-1 point. -/
def angleLT (c a b : Vec3 ℚ) : Bool :=
  let va := a - c
  let vb := b - c
  if angClass va = angClass vb then decide (0 < crossXZ va vb)
  else decide (angClass va < angClass vb)

/-- Non-strict version of `angleLT`, driving the insertion sort. -/
def angleLE (c a b : Vec3 ℚ) : Bool := !(angleLT c b a)

/-- Insert into a sorted list, keeping the comparator order. -/
def insertSorted (le : Vec3 ℚ → Vec3 ℚ → Bool) (x : Vec3 ℚ) : List (Vec3 ℚ) → List (Vec3 ℚ)
  | [] => [x]
  | y :: ys => if le x y then x :: y :: ys else y :: insertSorted le x ys

/-- The `[...points].sort(byAngleAroundCentroid)` step of `getConvexHull`,
modelled as an insertion sort with the exact atan2 comparator. -/
def sortByAngle (c : Vec3 ℚ) (l : List (Vec3 ℚ)) : List (Vec3 ℚ) :=
  l.foldr (insertSorted (angleLE c)) []

/-- The `points.reduce((acc, p) => acc.add(p), new Vector3())
.divideScalar(points.length)` centroid of `getConvexHull` (line 16). -/
def centroidOf (points : List (Vec3 ℚ)) : Vec3 ℚ :=
  (points.foldl (fun acc q => acc + q) (⟨0, 0, 0⟩ : Vec3 ℚ)).divScalar (points.length : ℚ)

/-- The `sortedPoints.push(sortedPoints[0])` closing step (line 22). -/
def closeLoop (l : List (Vec3 ℚ)) : List (Vec3 ℚ) :=
  match l with
  | [] => []
  | h :: t => (h :: t) ++ [h]

/-- The smoothing loop of `getConvexHull` (lines 24-37): for each adjacent
pair push the current point followed by
`new Vector3().addVectors(current, next).multiplyScalar(0.15)` — the sum of
the pair scaled by the smoothing factor 0.15 (the inner `if` of the loop is
always true, and the final element of the closed list is not re-pushed). -/
def smoothe : List (Vec3 ℚ) → List (Vec3 ℚ)
  | a :: b :: rest => a :: Vec3.smul 0.15 (a + b) :: smoothe (b :: rest)
  | _ => []

/-- `getConvexHull` (part_009 lines 11-38): positions of the given players;
lists of length ≤ 2 or exactly 3 are returned unchanged, otherwise sort by
angle around the centroid, close the loop, and interleave the smoothing
points. -/
def getConvexHull (players : List (Player ℚ)) : List (Vec3 ℚ) :=
  let points := players.map (fun p => p.position)
  if points.length ≤ 2 then points
  else if points.length = 3 then points
  else
    let centroid := centroidOf points
    let sortedPoints := sortByAngle centroid points
    smoothe (closeLoop sortedPoints)

/-- The hull points computed by the `CoveredArea` component (lines 41-42). -/
def coveredAreaHull (players : List (Player ℚ)) (playerIds : List String) : List (Vec3 ℚ) :=
  getConvexHull (activePlayers players playerIds)

/-- The polygon built by `CoveredArea` (lines 43-53, 55): `none` (nothing
rendered) when fewer than 3 hull points result, otherwise the closed polygon
through exactly the hull points. -/
def coveredAreaShape (players : List (Player ℚ)) (playerIds : List String) :
    Option (List (Vec3 ℚ)) :=
  if (coveredAreaHull players playerIds).length < 3 then none
  else some (coveredAreaHull players playerIds)

/-- Every second element of a list, starting at the head (used to state
which output vertices of `getConvexHull` are original input points). -/
def evens : List (Vec3 ℚ) → List (Vec3 ℚ)
  | [] => []
  | [a] => [a]
  | a :: _ :: rest => a :: evens rest

/- ### Selection drags (src/unnamed/part_007: DragState, beginSelectionDrag,
updateSelectionAt).  These branches use `length`, `cos`, `sin` and
`atan2`, so they are modelled over `ℝ`. -/

/-- Euclidean norm of a `Vec3 ℝ` (`Vector3.length`). -/
noncomputable def norm3 (v : Vec3 ℝ) : ℝ := Real.sqrt (v.x^2 + v.y^2 + v.z^2)

/-- Euclidean distance (`Vector3.distanceTo`). -/
noncomputable def dist3 (a b : Vec3 ℝ) : ℝ := norm3 (a - b)

/-- `Math.atan2 y x`: the argument of the point `(x, y)`, in `(-π, π]`,
with `atan2 0 0 = 0`. -/
noncomputable def atan2 (y x : ℝ) : ℝ := Complex.arg ⟨x, y⟩

/-- The five selection-drag modes of part_007 (`'move' | 'arrow-from' |
'arrow-to' | 'resize' | 'rotate'`). -/
inductive DragMode where
  | move
  | arrowFrom
  | arrowTo
  | resize
  | rotate
  deriving DecidableEq

/-- The `DragState` snapshot record of part_007 (lines 138-154). -/
structure DragState where
  annId : String
  shapeType : AnnType
  mode : DragMode
  startPointer : Vec3 ℝ
  initialFrom : Option (Vec3 ℝ) := none
  initialTo : Option (Vec3 ℝ) := none
  initialLength : Option ℝ := none
  initialCenter : Option (Vec3 ℝ) := none
  initialRadius : Option ℝ := none
  initialStart : Option (Vec3 ℝ) := none
  initialEnd : Option (Vec3 ℝ) := none
  initialRotation : Option ℝ := none

/-- `beginSelectionDrag` (part_007 lines 278-322) with the plane point `p`
already resolved (`screenToPlane`; a miss returns before any snapshot and
starts no drag, so only started drags are modelled): snapshot the
annotation's current geometry into a `DragState`. -/
noncomputable def beginSelectionDrag (p : Vec3 ℝ) (ann : Ann ℝ) (mode : DragMode) : DragState :=
  match ann.shape with
  | .arrow f t =>
      { annId := ann.id, shapeType := .arrow, mode := mode, startPointer := p
        initialFrom := some f, initialTo := some t, initialLength := some (dist3 f t) }
  | .circle c r =>
      { annId := ann.id, shapeType := .circle, mode := mode, startPointer := p
        initialCenter := some c, initialRadius := some r }
  | .rect sq s e rot =>
      { annId := ann.id, shapeType := if sq then .square else .rectangle, mode := mode
        startPointer := p, initialStart := some s, initialEnd := some e
        initialRotation := some (rot.getD 0) }

/-- `updateSelectionAt` (part_007 lines 157-205), as the patch passed to
`updateAnnotation`; `none` when no branch issues an update (an `arrow` in
`resize` mode).  The source's non-null assertions (`st.initialFrom!` etc.)
are modelled by `Option.getD` with a zero default; every snapshot built by
`beginSelectionDrag` populates exactly the fields its branches read. -/
noncomputable def updateSelectionAt (st : DragState) (p : Vec3 ℝ) : Option (AnnPatch ℝ) :=
  let delta := p - st.startPointer
  if st.shapeType = AnnType.arrow then
    let frm := st.initialFrom.getD ⟨0, 0, 0⟩
    let t := st.initialTo.getD ⟨0, 0, 0⟩
    if st.mode = DragMode.arrowFrom then some { frm := some ⟨p.x, frm.y, p.z⟩ }
    else if st.mode = DragMode.arrowTo then some { toP := some ⟨p.x, t.y, p.z⟩ }
    else if st.mode = DragMode.move then
      some { frm := some (frm + delta), toP := some (t + delta) }
    else if st.mode = DragMode.rotate then
      let len := st.initialLength.getD (dist3 frm t)
      let ang := atan2 (p.z - frm.z) (p.x - frm.x)
      some { toP := some ⟨frm.x + len * Real.cos ang, t.y, frm.z + len * Real.sin ang⟩ }
    else none
  else if st.shapeType = AnnType.circle then
    let center := st.initialCenter.getD ⟨0, 0, 0⟩
    if st.mode = DragMode.resize then
      some { radius := some (max 0.1 (norm3 (p - center))) }
    else some { center := some (center + delta) }
  else
    let s := st.initialStart.getD ⟨0, 0, 0⟩
    let e := st.initialEnd.getD ⟨0, 0, 0⟩
    let rot := st.initialRotation.getD 0
    if st.mode = DragMode.rotate then
      let cx := (s.x + e.x) / 2
      let cz := (s.z + e.z) / 2
      some { rotation := some (atan2 (p.z - cz) (p.x - cx)) }
    else if st.mode = DragMode.resize then
      let cx := (s.x + e.x) / 2
      let cz := (s.z + e.z) / 2
      let lpx := p.x - cx
      let lpz := p.z - cz
      let cosR := Real.cos (-rot)
      let sinR := Real.sin (-rot)
      let lx := lpx * cosR - lpz * sinR
      let lz := lpx * sinR + lpz * cosR
      let halfW0 := max 0.1 |lx|
      let halfH0 := max 0.1 |lz|
      let m := max halfW0 halfH0
      let halfW := if st.shapeType = AnnType.square then m else halfW0
      let halfH := if st.shapeType = AnnType.square then m else halfH0
      some { start := some ⟨cx - halfW, s.y, cz - halfH⟩
             endP := some ⟨cx + halfW, e.y, cz + halfH⟩ }
    else some { start := some (s + delta), endP := some (e + delta) }

/-- The effect of one `updateSelectionAt` call on the annotation store:
the computed patch is applied through `updateAnnotation` (modelled by
`updateAnn`); when no branch fires the store is unchanged. -/
noncomputable def applySelectionDrag (st : DragState) (p : Vec3 ℝ) (l : List (Ann ℝ)) :
    List (Ann ℝ) :=
  match updateSelectionAt st p with
  | some q => updateAnn st.annId q l
  | none => l

/-- Translation of an annotation's stored coordinate fields by a fixed
delta, leaving every other field unchanged (the shape of the `move`
invariant). -/
def translateAnn (d : Vec3 α) [Add α] (a : Ann α) : Ann α :=
  { a with shape := match a.shape with
      | .rect sq s e r => .rect sq (s + d) (e + d) r
      | .circle c rad => .circle (c + d) rad
      | .arrow f t => .arrow (f + d) (t + d) }

/-- The half-extents a rectangle/square stores: half of `end - start` in x
and z (the quantities the resize branch clamps at 0.1). -/
noncomputable def rectHalfExtents : AnnShape ℝ → Option (ℝ × ℝ)
  | .rect _ s e _ => some ((e.x - s.x) / 2, (e.z - s.z) / 2)
  | _ => none

/-- The half-extents of the single annotation of a one-element store. -/
noncomputable def rectHalfExtentsOfList : List (Ann ℝ) → Option (ℝ × ℝ)
  | [a] => rectHalfExtents a.shape
  | _ => none

/- ### Concrete fixtures used by counterexamples and witnesses -/

/-- A team-A player with the given id and position (name, number and role
are irrelevant to the properties below). -/
def mkPlayer (idS : String) (pos : Vec3 ℚ) : Player ℚ :=
  { id := idS, teamId := .A, name := idS, number := 1, role := .CM, position := pos }

/-- An unfilled solid rectangle annotation with the given corners and the
default drawing style of DrawingContext. -/
def mkRect (idS : String) (s e : Vec3 ℚ) : Ann ℚ :=
  { id := idS, color := "#f59e0b", lineWidth := 2, filled := false
    strokeStyle := some .solid, shape := .rect false s e none }

/-- Two overlapping rectangles: `overlapRect0` is created first (bottom),
`overlapRect1` second (top); both contain `overlapPoint`. -/
def overlapRect0 : Ann ℚ := mkRect "a0" ⟨0, 0, 0⟩ ⟨4, 0, 4⟩

/-- The later-created, topmost of the two overlapping rectangles. -/
def overlapRect1 : Ann ℚ := mkRect "a1" ⟨1, 0, 1⟩ ⟨5, 0, 5⟩

/-- A point inside both overlapping rectangles. -/
def overlapPoint : Vec3 ℚ := ⟨2, 0, 2⟩

/-- Four players at the compass points around the origin (their centroid). -/
def hullPlayers4 : List (Player ℚ) :=
  [mkPlayer "h1" ⟨10, 0, 0⟩, mkPlayer "h2" ⟨0, 0, 10⟩,
   mkPlayer "h3" ⟨-10, 0, 0⟩, mkPlayer "h4" ⟨0, 0, -10⟩]

/-- Three players at distinct positions, all selected by `selIds3`. -/
def selPlayers3 : List (Player ℚ) :=
  [mkPlayer "s1" ⟨0, 0, 0⟩, mkPlayer "s2" ⟨10, 0, 0⟩, mkPlayer "s3" ⟨0, 0, 10⟩]

/-- The ids of all three players of `selPlayers3`. -/
def selIds3 : List String := ["s1", "s2", "s3"]

/-- A single-element roster used by no-op update witnesses. -/
def witnessPlayers : List (Player ℚ) := [mkPlayer "p1" ⟨0, 0, 0⟩]

/-- A single-element annotation store used by no-op update witnesses. -/
def witnessAnns : List (Ann ℚ) := [mkRect "w0" ⟨0, 0, 0⟩ ⟨1, 0, 1⟩]

/- ### Helper lemmas -/

/-- Componentwise unfolding of `Vec3` addition. -/
theorem Vec3.add_def [Add α] (a b : Vec3 α) :
    a + b = ⟨a.x + b.x, a.y + b.y, a.z + b.z⟩ := rfl

/-- Componentwise unfolding of `Vec3` subtraction. -/
theorem Vec3.sub_def [Sub α] (a b : Vec3 α) :
    a - b = ⟨a.x - b.x, a.y - b.y, a.z - b.z⟩ := rfl

/-- Mapping a function that fixes every member of a list is the identity. -/
theorem map_fixed_eq_self (l : List α) (f : α → α) (h : ∀ a ∈ l, f a = a) :
    l.map f = l := by
  induction l with
  | nil => rfl
  | cons a t ih =>
      simp only [List.map_cons, h a (List.mem_cons_self a t),
        ih (fun b hb => h b (List.mem_cons_of_mem a hb)), List.cons.injEq, and_self]

/-- Double membership toggle leaves the id-list set-equal to the original. -/
theorem toggleIds_twice_mem (pid x : String) (l : List String) :
    x ∈ toggleIds pid (toggleIds pid l) ↔ x ∈ l := by
  unfold toggleIds
  by_cases h : pid ∈ l
  · rw [if_pos h]
    have hnot : pid ∉ l.filter (fun i => i ≠ pid) := by simp
    rw [if_neg hnot]
    by_cases hx : x = pid
    · subst hx
      simp [h]
    · simp [List.mem_append, List.mem_filter, hx]
  · rw [if_neg h]
    rw [if_pos (by simp : pid ∈ l ++ [pid])]
    by_cases hx : x = pid
    · subst hx
      simp [h]
    · simp [List.mem_filter, List.mem_append, hx]

/- ### Claim theorems -/

/-- C1: for a draw gesture with no other nav-lock changes in between,
`endDrawNavLock ∘ beginDrawNavLock` restores the nav-lock flag to its value
at gesture start (false stays false, true stays true), for any prior
snapshot content. -/
theorem navlock_begin_end_restores (b prev : Bool) :
    (endDrawNavLock (beginDrawNavLock ⟨b, prev, false⟩)).isNavLocked = b := by
  revert b prev
  decide

/-- C2 counterexample: starting with the lock on, beginning a draw gesture,
toggling via the Space handler mid-gesture, then ending the gesture leaves
the lock OFF, not on — the restore step only fires when the snapshot was
unlocked, so it never undoes a mid-gesture toggle. -/
theorem navlock_space_mid_gesture_cex :
    (endDrawNavLock (toggleNavLock (beginDrawNavLock ⟨true, false, false⟩))).isNavLocked
      = false := by
  decide

/-- C2 amended: with one Space toggle between gesture start and gesture end,
the lock is false at gesture end regardless of its value at gesture start —
the snapshot/restore invariant survives a mid-gesture toggle only when the
lock started false. -/
theorem navlock_space_mid_gesture_unlocks (b prev : Bool) :
    (endDrawNavLock (toggleNavLock (beginDrawNavLock ⟨b, prev, false⟩))).isNavLocked
      = false := by
  revert b prev
  decide

/-- C8: calling `togglePlayerSelection` twice with the same team, feature
and player id leaves the corresponding membership id-list equal as a set to
its original contents. -/
theorem toggle_player_selection_twice_set_eq (s : TeamOptionsState) (team : Team)
    (feature : Feature) (playerId x : String) :
    x ∈ featureIds feature (teamOptionsOf team
        (togglePlayerSelection team feature playerId
          (togglePlayerSelection team feature playerId s)))
      ↔ x ∈ featureIds feature (teamOptionsOf team s) := by
  cases team <;> cases feature <;>
    simp only [togglePlayerSelection, toggleFeature, teamOptionsOf, featureIds] <;>
    exact toggleIds_twice_mem playerId x _

/-- C9: updating a player or an annotation by an id not present in the
store leaves the stored list completely unchanged. -/
theorem update_missing_id_noop :
    (∀ (l : List (Player ℚ)) (idS : String) (q : PlayerPatch ℚ),
        (∀ p ∈ l, p.id ≠ idS) → updatePlayer idS q l = l)
    ∧ (∀ (l : List (Player ℚ)) (idS : String) (pos : Vec3 ℚ),
        (∀ p ∈ l, p.id ≠ idS) → updatePlayerPosition idS pos l = l)
    ∧ (∀ (l : List (Ann ℚ)) (idS : String) (q : AnnPatch ℚ),
        (∀ a ∈ l, a.id ≠ idS) → updateAnn idS q l = l) := by
  refine ⟨fun l idS q h => ?_, fun l idS pos h => ?_, fun l idS q h => ?_⟩ <;>
    exact map_fixed_eq_self l _ (fun a ha => if_neg (h a ha))

/-- C9 witness: a concrete store with a single entry `p1`/`w0` is untouched
by updates addressed to the absent id `zz`. -/
theorem update_missing_id_noop_witness :
    (∀ p ∈ witnessPlayers, p.id ≠ "zz")
    ∧ updatePlayer "zz" {} witnessPlayers = witnessPlayers
    ∧ updatePlayerPosition "zz" ⟨1, 0, 1⟩ witnessPlayers = witnessPlayers
    ∧ updateAnn "zz" {} witnessAnns = witnessAnns :=
  ⟨by decide,
   update_missing_id_noop.1 witnessPlayers "zz" {} (by decide),
   update_missing_id_noop.2.1 witnessPlayers "zz" ⟨1, 0, 1⟩ (by decide),
   update_missing_id_noop.2.2 witnessAnns "zz" {} (by decide)⟩

/-- Twice the number of pairs produced by the PassingNet double loop. -/
theorem pairsOf_length_twice (l : List (Vec3 ℚ)) :
    2 * (pairsOf l).length = l.length * (l.length - 1) := by
  induction l with
  | nil => rfl
  | cons x xs ih =>
      have key : ∀ n : ℕ, (n + 1) * (n + 1 - 1) = n * (n - 1) + 2 * n := by
        intro n
        cases n with
        | zero => rfl
        | succ m =>
            simp only [Nat.succ_sub_one]
            ring
      simp only [pairsOf, List.length_append, List.length_map, List.length_cons]
      rw [key]
      omega

/-- The PassingNet double loop produces exactly `n * (n - 1) / 2` pairs. -/
theorem pairsOf_length (l : List (Vec3 ℚ)) :
    (pairsOf l).length = l.length * (l.length - 1) / 2 := by
  have h := pairsOf_length_twice l
  omega

/-- Every index pair `i < j` contributes its segment to the double loop. -/
theorem pairsOf_mem (l : List (Vec3 ℚ)) (i j : ℕ) (hij : i < j) (hj : j < l.length) :
    (l[i]?.getD ⟨0, 0, 0⟩, l[j]?.getD ⟨0, 0, 0⟩) ∈ pairsOf l := by
  induction l generalizing i j with
  | nil => simp at hj
  | cons x xs ih =>
      obtain ⟨j', rfl⟩ : ∃ j', j = j' + 1 := ⟨j - 1, by omega⟩
      cases i with
      | zero =>
          simp only [pairsOf, List.mem_append, List.getElem?_cons_zero,
            List.getElem?_cons_succ, Option.getD_some]
          left
          have hj' : j' < xs.length := by
            simpa using hj
          have hmem : xs[j']?.getD ⟨0, 0, 0⟩ ∈ xs := by
            rw [List.getElem?_eq_getElem hj']
            exact List.getElem_mem hj'
          exact List.mem_map_of_mem _ hmem
      | succ i' =>
          simp only [pairsOf, List.mem_append, List.getElem?_cons_succ]
          right
          exact ih i' j' (by omega) (by simpa using hj)

/-- C5: the passing network for a selection of `n` present players consists
of exactly `n * (n - 1) / 2` segments — none at all when `n < 2` — and it
contains the segment of every index pair `i < j` of selected positions. -/
theorem passing_net_line_count (players : List (Player ℚ)) (playerIds : List String) :
    (passingNetLines players playerIds).length =
      (activePlayers players playerIds).length *
        ((activePlayers players playerIds).length - 1) / 2
    ∧ ((activePlayers players playerIds).length < 2 → passingNetLines players playerIds = [])
    ∧ (∀ i j : ℕ, i < j → j < (activePlayers players playerIds).length →
        (((activePlayers players playerIds).map (fun p => p.position))[i]?.getD ⟨0, 0, 0⟩,
         ((activePlayers players playerIds).map (fun p => p.position))[j]?.getD ⟨0, 0, 0⟩)
          ∈ passingNetLines players playerIds) := by
  refine ⟨?_, ?_, ?_⟩
  · unfold passingNetLines
    by_cases h : (activePlayers players playerIds).length < 2
    · rw [if_pos h]
      have h01 : (activePlayers players playerIds).length = 0
          ∨ (activePlayers players playerIds).length = 1 := by omega
      rcases h01 with h0 | h1
      · simp [h0]
      · simp [h1]
    · rw [if_neg h, pairsOf_length]
      simp
  · intro h
    unfold passingNetLines
    rw [if_pos h]
  · intro i j hij hj
    unfold passingNetLines
    rw [if_neg (by omega)]
    exact pairsOf_mem _ i j hij (by simpa using hj)

/-- C5 witness: with one selected player no segment is rendered, and with
the three players of `selPlayers3` all selected the segment between the
first two selected positions is rendered. -/
theorem passing_net_line_count_witness :
    (activePlayers selPlayers3 ["s1"]).length < 2
    ∧ passingNetLines selPlayers3 ["s1"] = []
    ∧ (0 : ℕ) < 1 ∧ 1 < (activePlayers selPlayers3 selIds3).length
    ∧ (((activePlayers selPlayers3 selIds3).map (fun p => p.position))[0]?.getD ⟨0, 0, 0⟩,
       ((activePlayers selPlayers3 selIds3).map (fun p => p.position))[1]?.getD ⟨0, 0, 0⟩)
        ∈ passingNetLines selPlayers3 selIds3 :=
  ⟨by decide,
   (passing_net_line_count selPlayers3 ["s1"]).2.1 (by decide),
   by decide, by decide,
   (passing_net_line_count selPlayers3 selIds3).2.2 0 1 (by decide) (by decide)⟩

/-- The `points.length <= 2` and `points.length === 3` early returns of
`getConvexHull` are the identity on the position list. -/
theorem getConvexHull_of_le_three (players : List (Player ℚ))
    (h : (players.map (fun p => p.position)).length ≤ 3) :
    getConvexHull players = players.map (fun p => p.position) := by
  unfold getConvexHull
  by_cases h2 : (players.map (fun p => p.position)).length ≤ 2
  · rw [if_pos h2]
  · rw [if_neg h2, if_pos (by omega)]

/-- C6: the covered-area polygon is rendered exactly when at least 3 hull
points result; for exactly 3 selected players the hull step is the identity
and the polygon's vertices are exactly the 3 selected positions; for 2 or
fewer selected players the hull returns the input unchanged and no polygon
is built. -/
theorem covered_area_render_rule (players : List (Player ℚ)) (playerIds : List String) :
    (coveredAreaShape players playerIds = none
      ↔ (coveredAreaHull players playerIds).length < 3)
    ∧ ((activePlayers players playerIds).length = 3 →
        coveredAreaShape players playerIds =
          some ((activePlayers players playerIds).map (fun p => p.position)))
    ∧ ((activePlayers players playerIds).length ≤ 2 →
        coveredAreaHull players playerIds =
          (activePlayers players playerIds).map (fun p => p.position)
        ∧ coveredAreaShape players playerIds = none) := by
  refine ⟨?_, ?_, ?_⟩
  · unfold coveredAreaShape
    by_cases h : (coveredAreaHull players playerIds).length < 3
    · simp [h]
    · simp [h]
  · intro h3
    have hh : coveredAreaHull players playerIds =
        (activePlayers players playerIds).map (fun p => p.position) :=
      getConvexHull_of_le_three _ (by simp [h3])
    unfold coveredAreaShape
    rw [hh, if_neg (by simp [h3])]
  · intro h2
    have hh : coveredAreaHull players playerIds =
        (activePlayers players playerIds).map (fun p => p.position) :=
      getConvexHull_of_le_three _ (by simp; omega)
    refine ⟨hh, ?_⟩
    unfold coveredAreaShape
    rw [hh, if_pos (by simp; omega)]

/-- C6 witness: with the three players of `selPlayers3` all selected, the
subset has size 3 and the rendered polygon's vertices are exactly the three
selected positions. -/
theorem covered_area_render_rule_witness :
    (activePlayers selPlayers3 selIds3).length = 3
    ∧ coveredAreaShape selPlayers3 selIds3 =
        some ((activePlayers selPlayers3 selIds3).map (fun p => p.position)) :=
  ⟨by decide, (covered_area_render_rule selPlayers3 selIds3).2.1 (by decide)⟩

/-- With distinct ids, `removeAnnotation` of the id of a present annotation
deletes exactly that annotation. -/
theorem removeAnn_eq_erase (l : List (Ann ℚ)) (a : Ann ℚ) (ha : a ∈ l)
    (hn : (l.map Ann.id).Nodup) : removeAnn a.id l = l.erase a := by
  induction l with
  | nil => cases ha
  | cons c t ih =>
      simp only [List.map_cons, List.nodup_cons] at hn
      obtain ⟨hcid, hnt⟩ := hn
      by_cases hc : c = a
      · subst hc
        have ht : removeAnn c.id t = t := by
          unfold removeAnn
          apply List.filter_eq_self.mpr
          intro b hb
          simp only [ne_eq, decide_eq_true_eq]
          intro he
          exact hcid (he ▸ List.mem_map_of_mem Ann.id hb)
        unfold removeAnn at ht ⊢
        rw [List.filter_cons, if_neg (by simp), ht, List.erase_cons_head]
      · have hat : a ∈ t := by
          rcases List.mem_cons.mp ha with h | h
          · exact absurd h.symm hc
          · exact h
        have hcne : c.id ≠ a.id := by
          intro he
          exact hcid (he ▸ List.mem_map_of_mem Ann.id hat)
        have hstep : removeAnn a.id (c :: t) = c :: removeAnn a.id t := by
          unfold removeAnn
          rw [List.filter_cons, if_pos (by simp [hcne])]
        rw [hstep, ih hat hnt, List.erase_cons_tail]
        simp [hc]

/-- C3 counterexample: both overlapping rectangles contain the click point,
yet the erase branch removes the FIRST-created (bottom) one, keeping the
topmost — while the unused reverse-order helper `pickAnnotationAt` would
have selected the topmost. -/
theorem erase_overlap_removes_first_created_cex :
    hitAnn overlapPoint overlapRect0 = true
    ∧ hitAnn overlapPoint overlapRect1 = true
    ∧ eraseAnnAt overlapPoint [overlapRect0, overlapRect1] = [overlapRect1]
    ∧ pickAnnotationAt overlapPoint [overlapRect0, overlapRect1] = some overlapRect1 := by
  decide

/-- C3 amended: when the erase tool's pointer-down hits a point contained in
several annotations, the first-created (earliest-in-list) hit is removed —
the erase branch scans in creation order, not reverse order — exactly one
annotation is removed per click (given distinct ids), every other annotation
survives, and no nav lock is acquired. -/
theorem erase_removes_first_hit (p : Vec3 ℚ) (l : List (Ann ℚ)) (a : Ann ℚ)
    (nav : NavState)
    (hfind : l.find? (hitAnn p) = some a)
    (hn : (l.map Ann.id).Nodup) :
    hitAnn p a = true
    ∧ eraseAnnAt p l = l.erase a
    ∧ (eraseAnnAt p l).length + 1 = l.length
    ∧ a ∉ eraseAnnAt p l
    ∧ (∀ b ∈ l, b ≠ a → b ∈ eraseAnnAt p l)
    ∧ (onFieldPointerDownErase p l nav).2 = nav := by
  have ha : a ∈ l := List.mem_of_find?_eq_some hfind
  have hhit : hitAnn p a = true := List.find?_some hfind
  have hln : l.Nodup := hn.of_map
  have herase : eraseAnnAt p l = l.erase a := by
    unfold eraseAnnAt
    rw [hfind]
    exact removeAnn_eq_erase l a ha hn
  refine ⟨hhit, herase, ?_, ?_, ?_, rfl⟩
  · rw [herase, List.length_erase_of_mem ha]
    have h1 : 0 < l.length := List.length_pos_of_mem ha
    omega
  · rw [herase]
    intro hmem
    exact ((hln.mem_erase_iff).mp hmem).1 rfl
  · intro b hb hba
    rw [herase]
    exact hln.mem_erase_iff.mpr ⟨hba, hb⟩

/-- C3 witness: on the concrete overlapping store the first-created
rectangle is the first hit; applying the theorem there shows one annotation
is removed and the removed one is gone. -/
theorem erase_removes_first_hit_witness :
    [overlapRect0, overlapRect1].find? (hitAnn overlapPoint) = some overlapRect0
    ∧ ([overlapRect0, overlapRect1].map Ann.id).Nodup
    ∧ (eraseAnnAt overlapPoint [overlapRect0, overlapRect1]).length + 1 = 2
    ∧ overlapRect0 ∉ eraseAnnAt overlapPoint [overlapRect0, overlapRect1] :=
  ⟨by decide, by decide,
   (erase_removes_first_hit overlapPoint [overlapRect0, overlapRect1] overlapRect0
     ⟨false, false, false⟩ (by decide) (by decide)).2.2.1,
   (erase_removes_first_hit overlapPoint [overlapRect0, overlapRect1] overlapRect0
     ⟨false, false, false⟩ (by decide) (by decide)).2.2.2.1⟩

/-- Inserting into a sorted list permutes consing. -/
theorem insertSorted_perm (le : Vec3 ℚ → Vec3 ℚ → Bool) (x : Vec3 ℚ) (l : List (Vec3 ℚ)) :
    List.Perm (insertSorted le x l) (x :: l) := by
  induction l with
  | nil => exact List.Perm.refl _
  | cons y ys ih =>
      unfold insertSorted
      cases hxy : le x y with
      | true => simp
      | false =>
          simp only [Bool.false_eq_true, if_false]
          exact (ih.cons y).trans (List.Perm.swap x y ys)

/-- The angle sort permutes its input. -/
theorem sortByAngle_perm (c : Vec3 ℚ) (l : List (Vec3 ℚ)) :
    List.Perm (sortByAngle c l) l := by
  induction l with
  | nil => exact List.Perm.nil
  | cons x xs ih =>
      unfold sortByAngle
      simp only [List.foldr_cons]
      exact (insertSorted_perm _ x _).trans (ih.cons x)

/-- The smoothing loop doubles the pair count: a closed list of `k + 1`
points yields `2 * k` output points. -/
theorem smoothe_length : ∀ l : List (Vec3 ℚ), (smoothe l).length = 2 * (l.length - 1) := by
  intro l
  induction l with
  | nil => rfl
  | cons a t ih =>
      cases t with
      | nil => rfl
      | cons b rest =>
          show (a :: Vec3.smul 0.15 (a + b) :: smoothe (b :: rest)).length = _
          simp only [List.length_cons]
          rw [ih]
          simp only [List.length_cons]
          omega

/-- The even-indexed output points of the smoothing loop are the input
points with the closing duplicate dropped. -/
theorem evens_smoothe : ∀ l : List (Vec3 ℚ), evens (smoothe l) = l.dropLast := by
  intro l
  induction l with
  | nil => rfl
  | cons a t ih =>
      cases t with
      | nil => rfl
      | cons b rest =>
          show a :: evens (smoothe (b :: rest)) = (a :: b :: rest).dropLast
          rw [ih]
          rfl

/-- Even positions of the smoothing output hold the input points. -/
theorem smoothe_get_even : ∀ (l : List (Vec3 ℚ)) (i : ℕ), i + 1 < l.length →
    (smoothe l)[2 * i]? = l[i]? := by
  intro l i
  induction i generalizing l with
  | zero =>
      intro h
      cases l with
      | nil => simp at h
      | cons a t =>
          cases t with
          | nil => simp at h
          | cons b rest => rfl
  | succ i' ih =>
      intro h
      cases l with
      | nil => simp at h
      | cons a t =>
          cases t with
          | nil =>
              simp at h
          | cons b rest =>
              have h' : i' + 1 < (b :: rest).length := by
                simp only [List.length_cons] at h ⊢
                omega
              have hstep : (smoothe (a :: b :: rest))[2 * (i' + 1)]? =
                  (smoothe (b :: rest))[2 * i']? := by
                show (a :: Vec3.smul 0.15 (a + b) :: smoothe (b :: rest))[2 * (i' + 1)]? = _
                have e : 2 * (i' + 1) = 2 * i' + 1 + 1 := by ring
                rw [e, List.getElem?_cons_succ, List.getElem?_cons_succ]
              rw [hstep, ih _ h', List.getElem?_cons_succ]

/-- Odd positions of the smoothing output hold the interpolated point
`0.15 * (current + next)` of the two neighbouring input points. -/
theorem smoothe_get_odd : ∀ (l : List (Vec3 ℚ)) (i : ℕ), i + 1 < l.length →
    (smoothe l)[2 * i + 1]? =
      some (Vec3.smul 0.15 (l[i]?.getD ⟨0, 0, 0⟩ + l[i + 1]?.getD ⟨0, 0, 0⟩)) := by
  intro l i
  induction i generalizing l with
  | zero =>
      intro h
      cases l with
      | nil => simp at h
      | cons a t =>
          cases t with
          | nil => simp at h
          | cons b rest => simp [smoothe]
  | succ i' ih =>
      intro h
      cases l with
      | nil => simp at h
      | cons a t =>
          cases t with
          | nil =>
              simp at h
          | cons b rest =>
              have h' : i' + 1 < (b :: rest).length := by
                simp only [List.length_cons] at h ⊢
                omega
              have hstep : (smoothe (a :: b :: rest))[2 * (i' + 1) + 1]? =
                  (smoothe (b :: rest))[2 * i' + 1]? := by
                show (a :: Vec3.smul 0.15 (a + b) :: smoothe (b :: rest))[2 * (i' + 1) + 1]? = _
                have e : 2 * (i' + 1) + 1 = 2 * i' + 1 + 1 + 1 := by ring
                rw [e, List.getElem?_cons_succ, List.getElem?_cons_succ]
              rw [hstep, ih _ h']
              simp [List.getElem?_cons_succ]

/-- The `n ≥ 4` branch of `getConvexHull`. -/
theorem getConvexHull_of_ge_four (players : List (Player ℚ))
    (h : 4 ≤ (players.map (fun p => p.position)).length) :
    getConvexHull players =
      smoothe (closeLoop (sortByAngle (centroidOf (players.map (fun p => p.position)))
        (players.map (fun p => p.position)))) := by
  unfold getConvexHull
  rw [if_neg (by omega), if_neg (by omega)]

/-- C4 counterexample: four players at the compass points around the
origin; the point the hull construction inserts between output vertices 0
and 2 is `0.15 * (sum of the two vertices)`, which is NOT their midpoint. -/
theorem hull_inserted_point_not_midpoint_cex :
    4 ≤ hullPlayers4.length
    ∧ (getConvexHull hullPlayers4)[1]?.getD ⟨0, 0, 0⟩ ≠
        Vec3.smul (1 / 2) ((getConvexHull hullPlayers4)[0]?.getD ⟨0, 0, 0⟩ +
          (getConvexHull hullPlayers4)[2]?.getD ⟨0, 0, 0⟩) := by
  have hmap : hullPlayers4.map (fun p => p.position) =
      [⟨10, 0, 0⟩, ⟨0, 0, 10⟩, ⟨-10, 0, 0⟩, ⟨0, 0, -10⟩] := by
    norm_num [hullPlayers4, mkPlayer]
  have hout : getConvexHull hullPlayers4 =
      [⟨0, 0, -10⟩, ⟨1.5, 0, -1.5⟩, ⟨10, 0, 0⟩, ⟨1.5, 0, 1.5⟩, ⟨0, 0, 10⟩,
       ⟨-1.5, 0, 1.5⟩, ⟨-10, 0, 0⟩, ⟨-1.5, 0, -1.5⟩] := by
    rw [getConvexHull_of_ge_four hullPlayers4 (by rw [hmap]; norm_num), hmap]
    norm_num [sortByAngle, centroidOf, insertSorted, angleLE, angleLT, angClass,
      crossXZ, Vec3.add_def, Vec3.sub_def, Vec3.divScalar, smoothe, closeLoop, Vec3.smul]
  refine ⟨by decide, ?_⟩
  rw [hout]
  norm_num [Vec3.smul, Vec3.add_def]

/-- C4 amended: for `n ≥ 4` input points the construction sorts by angle
around the centroid and inserts one interpolated point between each
consecutive pair of sorted points (output length `2 * n`, even positions a
permutation of the inputs), but the inserted point is
`0.15 * (current + next)` — 0.3 of the way from the origin to the pair's
midpoint — not the midpoint of the two adjacent vertices. -/
theorem hull_inserted_points (players : List (Player ℚ)) (h4 : 4 ≤ players.length) :
    (getConvexHull players).length = 2 * players.length
    ∧ List.Perm (evens (getConvexHull players)) (players.map (fun p => p.position))
    ∧ (∀ i : ℕ, i < players.length →
        (getConvexHull players)[2 * i + 1]? =
          some (Vec3.smul 0.15
            ((getConvexHull players)[2 * i]?.getD ⟨0, 0, 0⟩ +
             (getConvexHull players)[(2 * i + 2) % (2 * players.length)]?.getD ⟨0, 0, 0⟩))) := by
  have hptslen : (players.map (fun p => p.position)).length = players.length :=
    List.length_map _ _
  have hdef := getConvexHull_of_ge_four players (by rw [hptslen]; exact h4)
  set pts := players.map (fun p => p.position) with hpts
  set s := sortByAngle (centroidOf pts) pts with hs
  have hsperm : List.Perm s pts := sortByAngle_perm _ _
  have hslen : s.length = players.length := by rw [hsperm.length_eq, hptslen]
  obtain ⟨h0, t, hst⟩ : ∃ h0 t, s = h0 :: t := by
    cases hcs : s with
    | nil =>
        rw [hcs] at hslen
        simp at hslen
        omega
    | cons h0 t => exact ⟨h0, t, rfl⟩
  have hclosed : closeLoop s = s ++ [h0] := by rw [hst]; rfl
  have hclen : (s ++ [h0]).length = players.length + 1 := by simp [hslen]
  have hout : getConvexHull players = smoothe (s ++ [h0]) := by rw [hdef, hclosed]
  refine ⟨?_, ?_, ?_⟩
  · rw [hout, smoothe_length, hclen]
    omega
  · rw [hout, evens_smoothe, List.dropLast_concat]
    exact hsperm
  · intro i hi
    have hi1 : i + 1 < (s ++ [h0]).length := by rw [hclen]; omega
    have hodd := smoothe_get_odd (s ++ [h0]) i hi1
    have heven := smoothe_get_even (s ++ [h0]) i hi1
    rw [hout, hodd, heven]
    by_cases hcase : i + 1 < players.length
    · have hmod : (2 * i + 2) % (2 * players.length) = 2 * i + 2 :=
        Nat.mod_eq_of_lt (by omega)
      have he2 : (smoothe (s ++ [h0]))[2 * (i + 1)]? = (s ++ [h0])[i + 1]? :=
        smoothe_get_even _ (i + 1) (by rw [hclen]; omega)
      have e : 2 * i + 2 = 2 * (i + 1) := by ring
      rw [hmod, e, he2]
    · have hieq : i + 1 = players.length := by omega
      have hmod : (2 * i + 2) % (2 * players.length) = 0 := by
        have e2 : 2 * i + 2 = 2 * players.length := by omega
        simp [e2]
      have he0 : (smoothe (s ++ [h0]))[2 * 0]? = (s ++ [h0])[0]? :=
        smoothe_get_even _ 0 (by rw [hclen]; omega)
      have he0n : (smoothe (s ++ [h0]))[0]? = (s ++ [h0])[0]? := by
        simpa using he0
      have hl : (s ++ [h0])[0]? = some h0 := by
        rw [hst]
        simp
      have hr : (s ++ [h0])[i + 1]? = some h0 := by
        rw [List.getElem?_append_right (by omega : s.length ≤ i + 1)]
        have e3 : i + 1 - s.length = 0 := by omega
        rw [e3]
        simp
      rw [hmod, he0n, hl, hr]

/-- C4 witness: the amended statement instantiated on the four compass
players, at inserted-point index 0. -/
theorem hull_inserted_points_witness :
    4 ≤ hullPlayers4.length
    ∧ (getConvexHull hullPlayers4).length = 2 * hullPlayers4.length
    ∧ (getConvexHull hullPlayers4)[2 * 0 + 1]? =
        some (Vec3.smul 0.15
          ((getConvexHull hullPlayers4)[2 * 0]?.getD ⟨0, 0, 0⟩ +
           (getConvexHull hullPlayers4)[(2 * 0 + 2) % (2 * hullPlayers4.length)]?.getD
             ⟨0, 0, 0⟩)) :=
  ⟨by decide, (hull_inserted_points hullPlayers4 (by decide)).1,
   (hull_inserted_points hullPlayers4 (by decide)).2.2 0 (by decide)⟩

/-- C7: a `move` selection drag whose pointer went from `p0` to `p` shifts
every stored coordinate field of the dragged annotation by exactly
`p - p0` (both rectangle/square corners, circle center, arrow endpoints)
and leaves every other field — radius, rotation, color, line width, fill,
stroke style, id — unchanged. -/
theorem move_transform_translates (a : Ann ℝ) (p0 p : Vec3 ℝ) :
    applySelectionDrag (beginSelectionDrag p0 a DragMode.move) p [a]
      = [translateAnn (p - p0) a] := by
  obtain ⟨i, c, lw, fl, ss, shape⟩ := a
  cases shape with
  | rect sq s e r =>
      cases sq <;>
        simp [beginSelectionDrag, updateSelectionAt, applySelectionDrag, updateAnn,
          mergeAnn, translateAnn]
  | circle cen rad =>
      simp [beginSelectionDrag, updateSelectionAt, applySelectionDrag, updateAnn,
        mergeAnn, translateAnn]
  | arrow f t =>
      simp [beginSelectionDrag, updateSelectionAt, applySelectionDrag, updateAnn,
        mergeAnn, translateAnn]

/-- C10: every resize drag clamps the stored geometry away from degenerate
size: a circle resize stores a radius of at least 0.1; a rectangle or
square resize stores half-extents of at least 0.1 in both axes; and a
square resize stores equal half-extents (symmetric start/end corners). -/
theorem resize_clamps_min_extent :
    (∀ (i c : String) (lw : ℝ) (fl : Bool) (ss : Option StrokeStyle)
        (cen : Vec3 ℝ) (rad : ℝ) (p0 p : Vec3 ℝ),
      ∃ r2 : ℝ, 0.1 ≤ r2 ∧
        applySelectionDrag
            (beginSelectionDrag p0 ⟨i, c, lw, fl, ss, AnnShape.circle cen rad⟩
              DragMode.resize) p
            [⟨i, c, lw, fl, ss, AnnShape.circle cen rad⟩]
          = [⟨i, c, lw, fl, ss, AnnShape.circle cen r2⟩])
    ∧ (∀ (sq : Bool) (i c : String) (lw : ℝ) (fl : Bool) (ss : Option StrokeStyle)
        (s e : Vec3 ℝ) (rot : Option ℝ) (p0 p : Vec3 ℝ),
      ∃ hw hh : ℝ, 0.1 ≤ hw ∧ 0.1 ≤ hh ∧
        rectHalfExtentsOfList
            (applySelectionDrag
              (beginSelectionDrag p0 ⟨i, c, lw, fl, ss, AnnShape.rect sq s e rot⟩
                DragMode.resize) p
              [⟨i, c, lw, fl, ss, AnnShape.rect sq s e rot⟩])
          = some (hw, hh))
    ∧ (∀ (i c : String) (lw : ℝ) (fl : Bool) (ss : Option StrokeStyle)
        (s e : Vec3 ℝ) (rot : Option ℝ) (p0 p : Vec3 ℝ),
      ∃ m : ℝ, 0.1 ≤ m ∧
        rectHalfExtentsOfList
            (applySelectionDrag
              (beginSelectionDrag p0 ⟨i, c, lw, fl, ss, AnnShape.rect true s e rot⟩
                DragMode.resize) p
              [⟨i, c, lw, fl, ss, AnnShape.rect true s e rot⟩])
          = some (m, m)) := by
  refine ⟨?_, ?_, ?_⟩
  · intro i c lw fl ss cen rad p0 p
    refine ⟨max 0.1 (norm3 (p - cen)), le_max_left _ _, ?_⟩
    simp [beginSelectionDrag, updateSelectionAt, applySelectionDrag, updateAnn, mergeAnn]
  · intro sq i c lw fl ss s e rot p0 p
    cases sq
    · refine ⟨max 0.1 |(p.x - (s.x + e.x) / 2) * Real.cos (-rot.getD 0) -
          (p.z - (s.z + e.z) / 2) * Real.sin (-rot.getD 0)|,
        max 0.1 |(p.x - (s.x + e.x) / 2) * Real.sin (-rot.getD 0) +
          (p.z - (s.z + e.z) / 2) * Real.cos (-rot.getD 0)|,
        le_max_left _ _, le_max_left _ _, ?_⟩
      simp [beginSelectionDrag, updateSelectionAt, applySelectionDrag, updateAnn,
        mergeAnn, rectHalfExtentsOfList, rectHalfExtents]
    · refine ⟨max (max 0.1 |(p.x - (s.x + e.x) / 2) * Real.cos (-rot.getD 0) -
          (p.z - (s.z + e.z) / 2) * Real.sin (-rot.getD 0)|)
          (max 0.1 |(p.x - (s.x + e.x) / 2) * Real.sin (-rot.getD 0) +
            (p.z - (s.z + e.z) / 2) * Real.cos (-rot.getD 0)|),
        max (max 0.1 |(p.x - (s.x + e.x) / 2) * Real.cos (-rot.getD 0) -
          (p.z - (s.z + e.z) / 2) * Real.sin (-rot.getD 0)|)
          (max 0.1 |(p.x - (s.x + e.x) / 2) * Real.sin (-rot.getD 0) +
            (p.z - (s.z + e.z) / 2) * Real.cos (-rot.getD 0)|),
        le_trans (le_max_left _ _) (le_max_left _ _),
        le_trans (le_max_left _ _) (le_max_left _ _), ?_⟩
      simp [beginSelectionDrag, updateSelectionAt, applySelectionDrag, updateAnn,
        mergeAnn, rectHalfExtentsOfList, rectHalfExtents]
  · intro i c lw fl ss s e rot p0 p
    refine ⟨max (max 0.1 |(p.x - (s.x + e.x) / 2) * Real.cos (-rot.getD 0) -
        (p.z - (s.z + e.z) / 2) * Real.sin (-rot.getD 0)|)
        (max 0.1 |(p.x - (s.x + e.x) / 2) * Real.sin (-rot.getD 0) +
          (p.z - (s.z + e.z) / 2) * Real.cos (-rot.getD 0)|),
      le_trans (le_max_left _ _) (le_max_left _ _), ?_⟩
    simp [beginSelectionDrag, updateSelectionAt, applySelectionDrag, updateAnn,
      mergeAnn, rectHalfExtentsOfList, rectHalfExtents]





